import Mathlib

/-!
Verification of the math core exposed by `src/python/magnum.math.cpp`:
the unit-tagged Angle family (Deg, Rad, Degd, Radd) and the fixed-size
BoolVector family (sizes 2, 3, 4, generalized over N).

The binding file under src/ registers the operations; the value types
themselves live in `Magnum/Math/Angle.h` and `Magnum/Math/BoolVector.h`,
which are not part of the source tree here.  Those parts are therefore
modelled from the specification, as marked on each definition.
-/

/-- Angular unit tag: degree or radian. -/
inductive AngleUnit : Type
  | degree
  | radian
deriving DecidableEq

/-- Precision tag: single (float) or double. -/
inductive Precision : Type
  | single
  | double
deriving DecidableEq

/-- Modelled from the spec: `Magnum/Math/Angle.h` is not under src/.
An Angle is a scalar tagged (at the type level) with a unit and a
precision; the scalar itself is modelled as an exact real number. -/
structure Angle (u : AngleUnit) (p : Precision) where
  value : ℝ

namespace Angle

/-- Modelled from the spec: the no-argument constructor registered at
`magnum.math.cpp:56`.  The spec lists the constructions as zero, zero-tag,
raw-value and conversions; the no-argument form is the zero construction. -/
def init {u : AngleUnit} {p : Precision} : Angle u p := ⟨0⟩

/-- Modelled from the spec: the `ZeroInit`-tag constructor registered at
`magnum.math.cpp:57`, producing the value 0 in unit u, precision p. -/
def initZero {u : AngleUnit} {p : Precision} : Angle u p := ⟨0⟩

/-- Modelled from the spec: `zero()` produces the value 0. -/
def zero {u : AngleUnit} {p : Precision} : Angle u p := ⟨0⟩

/-- Explicit constructor from a unitless scalar (`magnum.math.cpp:58`). -/
def ofScalar {u : AngleUnit} {p : Precision} (x : ℝ) : Angle u p := ⟨x⟩

/-- Explicit extraction of the underlying scalar (`__float__`,
`magnum.math.cpp:61`). -/
def toScalar {u : AngleUnit} {p : Precision} (a : Angle u p) : ℝ := a.value

/-- Angle-by-angle division at matching unit and precision, returning a
bare scalar, not an Angle (`__truediv__` lambda, `magnum.math.cpp:104`). -/
noncomputable def divAngle {u : AngleUnit} {p : Precision} (a b : Angle u p) : ℝ :=
  a.value / b.value

/-- Modelled from the spec: the degree-to-radian conversion constructor
(`magnum.math.cpp:166/172`) multiplies by pi/180 exactly once. -/
noncomputable def degToRad {p : Precision} (a : Angle .degree p) : Angle .radian p :=
  ⟨a.value * (Real.pi / 180)⟩

/-- Modelled from the spec: the radian-to-degree conversion constructor
(`magnum.math.cpp:165/169`) divides by pi/180 exactly once. -/
noncomputable def radToDeg {p : Precision} (a : Angle .radian p) : Angle .degree p :=
  ⟨a.value / (Real.pi / 180)⟩

end Angle

/-- Number of backing bytes of a BoolVector of size n: the minimal
count `(n + 7) / 8`. -/
def dataSize (n : Nat) : Nat := (n + 7) / 8

/-- Mask covering every bit of the backing storage bytes. -/
def storageMask (n : Nat) : Nat := 2 ^ (8 * dataSize n) - 1

/-- Valid-bit mask: exactly the bit positions [0, n) of the storage. -/
def validBitsMask (n : Nat) : Nat := 2 ^ n - 1

/-- Modelled from the spec: `Magnum/Math/BoolVector.h` is not under src/.
A BoolVector of size n is a packed boolean sequence stored in
`dataSize n` bytes; the bytes are modelled together as one natural
number `data`, bit i of `data` being bit i of the storage. -/
structure BoolVector (n : Nat) where
  data : Nat
deriving DecidableEq

namespace BoolVector

/-- Padding invariant: every bit at position ≥ n of the storage is zero,
i.e. the raw data is below 2 ^ n. -/
def paddingZero {n : Nat} (v : BoolVector n) : Prop := v.data < 2 ^ n

instance {n : Nat} (v : BoolVector n) : Decidable (paddingZero v) :=
  inferInstanceAs (Decidable (v.data < 2 ^ n))

/-- Modelled from the spec: the no-argument constructor registered at
`magnum.math.cpp:114`.  Of the spec's construction forms (zero-fill,
uniform fill, packed bytes) the no-argument form is the zero-fill. -/
def init (n : Nat) : BoolVector n := ⟨0⟩

/-- Modelled from the spec: the `ZeroInit`-tag constructor
(`magnum.math.cpp:115`), all n bits false. -/
def initZero (n : Nat) : BoolVector n := ⟨0⟩

/-- Modelled from the spec: `fill(v)` (`magnum.math.cpp:116`) sets all n
bits to v; when v is true the padding region is left zero, so the data
is exactly the valid-bit mask. -/
def fill (n : Nat) (v : Bool) : BoolVector n :=
  ⟨if v then validBitsMask n else 0⟩

/-- Modelled from the spec: `fromPacked` (`magnum.math.cpp:117`)
constructs from caller-supplied packed bytes; input bits at positions
≥ n are discarded by masking with the valid-bit mask. -/
def fromPacked (n : Nat) (b : Nat) : BoolVector n :=
  ⟨b &&& validBitsMask n⟩

/-- Modelled from the spec: `__bool__` (`magnum.math.cpp:120`) maps to
the raw truthiness of the underlying storage: true iff the stored bytes
are non-zero. -/
def toBool {n : Nat} (v : BoolVector n) : Bool := v.data != 0

/-- Modelled from the spec: `all()` (`magnum.math.cpp:127`) is a masked
comparison: the data restricted to the valid bits equals the mask. -/
def all {n : Nat} (v : BoolVector n) : Bool :=
  (v.data &&& validBitsMask n) == validBitsMask n

/-- Modelled from the spec: `none()` (`magnum.math.cpp:128`) is a masked
comparison: the data restricted to the valid bits is zero. -/
def none {n : Nat} (v : BoolVector n) : Bool :=
  (v.data &&& validBitsMask n) == 0

/-- Modelled from the spec: `any()` (`magnum.math.cpp:129`) is a masked
comparison: the data restricted to the valid bits is non-zero. -/
def any {n : Nat} (v : BoolVector n) : Bool :=
  (v.data &&& validBitsMask n) != 0

/-- Modelled from the spec: `__getitem__` (`magnum.math.cpp:133`) is
bounds-checked bit access; an index outside [0, n) fails with the
bounds error, modelled as `Option.none`. -/
def get {n : Nat} (v : BoolVector n) (i : Int) : Option Bool :=
  if 0 ≤ i ∧ i < (n : Int) then some (v.data.testBit i.toNat) else Option.none

/-- Modelled from the spec: `__setitem__` / `set` (`magnum.math.cpp:132`)
is bounds-checked bit update; an index outside [0, n) fails with the
bounds error, modelled as `Option.none`.  Setting true ORs the bit in,
setting false ANDs with the complement of the bit within the storage. -/
def set {n : Nat} (v : BoolVector n) (i : Int) (value : Bool) :
    Option (BoolVector n) :=
  if 0 ≤ i ∧ i < (n : Int) then
    some ⟨if value then v.data ||| 2 ^ i.toNat
          else v.data &&& (storageMask n ^^^ 2 ^ i.toNat)⟩
  else Option.none

/-- Modelled from the spec: bitwise NOT (`magnum.math.cpp:136`) flips
every storage bit and then re-applies the valid-bit mask so the padding
stays zero. -/
def bnot {n : Nat} (v : BoolVector n) : BoolVector n :=
  ⟨(v.data ^^^ storageMask n) &&& validBitsMask n⟩

/-- Modelled from the spec: bitwise AND (`magnum.math.cpp:137-138`),
byte-wise across the storage. -/
def band {n : Nat} (a b : BoolVector n) : BoolVector n :=
  ⟨a.data &&& b.data⟩

/-- Modelled from the spec: bitwise OR (`magnum.math.cpp:139-140`),
byte-wise across the storage. -/
def bor {n : Nat} (a b : BoolVector n) : BoolVector n :=
  ⟨a.data ||| b.data⟩

/-- Modelled from the spec: bitwise XOR (`magnum.math.cpp:141-142`),
byte-wise across the storage. -/
def bxor {n : Nat} (a b : BoolVector n) : BoolVector n :=
  ⟨a.data ^^^ b.data⟩

end BoolVector

/- Helper lemmas shared by the claim theorems. -/

/-- The size n never exceeds the bit width of the backing storage. -/
lemma le_storage_bits (n : Nat) : n ≤ 8 * dataSize n := by
  unfold dataSize
  have h := Nat.div_add_mod (n + 7) 8
  have h7 : (n + 7) % 8 < 8 := Nat.mod_lt _ (by norm_num)
  omega

/-- Bits of the valid-bit mask. -/
lemma testBit_validBitsMask (n i : Nat) :
    (validBitsMask n).testBit i = decide (i < n) := by
  unfold validBitsMask
  exact Nat.testBit_two_pow_sub_one n i

/-- Bits of the storage mask. -/
lemma testBit_storageMask (n i : Nat) :
    (storageMask n).testBit i = decide (i < 8 * dataSize n) := by
  unfold storageMask
  exact Nat.testBit_two_pow_sub_one _ i

/-- Under the padding invariant, masking with the valid-bit mask is the
identity on the raw data. -/
lemma land_validBitsMask_of_paddingZero {n : Nat} (v : BoolVector n)
    (h : v.paddingZero) : v.data &&& validBitsMask n = v.data := by
  unfold validBitsMask
  exact Nat.and_pow_two_sub_one_of_lt_two_pow h

/-- A natural number is non-zero exactly when some bit of it is set. -/
lemma ne_zero_iff_exists_testBit (x : Nat) :
    x ≠ 0 ↔ ∃ i, x.testBit i = true := by
  constructor
  · exact Nat.ne_zero_implies_bit_true
  · rintro ⟨i, hi⟩ h0
    rw [h0, Nat.zero_testBit] at hi
    exact Bool.false_ne_true hi

/-- C1: for every BoolVector (the padding invariant holding, as every
constructor and operation maintains it), the boolean conversion equals
`any()`: the raw truthiness of the storage is true exactly when one of
the first n bits is 1. -/
theorem boolVector_bool_eq_any {n : Nat} (v : BoolVector n)
    (h : v.paddingZero) :
    v.toBool = v.any ∧ (v.any = true ↔ ∃ i, i < n ∧ v.data.testBit i = true) := by
  constructor
  · unfold BoolVector.toBool BoolVector.any
    rw [land_validBitsMask_of_paddingZero v h]
  · unfold BoolVector.any
    rw [bne_iff_ne, ne_zero_iff_exists_testBit]
    constructor
    · rintro ⟨i, hi⟩
      rw [Nat.testBit_and, testBit_validBitsMask, Bool.and_eq_true,
        decide_eq_true_eq] at hi
      exact ⟨i, hi.2, hi.1⟩
    · rintro ⟨i, hin, hbit⟩
      refine ⟨i, ?_⟩
      rw [Nat.testBit_and, testBit_validBitsMask, hbit, Bool.true_and,
        decide_eq_true_eq]
      exact hin

/-- Witness for C1 at the concrete vector BoolVector4 with raw bits 1010. -/
theorem boolVector_bool_eq_any_witness :
    (BoolVector.fromPacked 4 10).paddingZero ∧
    (BoolVector.fromPacked 4 10).toBool = (BoolVector.fromPacked 4 10).any :=
  ⟨by decide, (boolVector_bool_eq_any (BoolVector.fromPacked 4 10) (by decide)).1⟩

/-- C2: `get` and `set` fail (return the bounds error, modelled as
`Option.none`) exactly on an index outside [0, n): an out-of-range index
is never clamped or accepted, and an in-range one never fails.  All
other operations of the core are total functions by their type. -/
theorem boolVector_get_set_bounds {n : Nat} (v : BoolVector n) (i : Int)
    (b : Bool) :
    (v.get i = Option.none ↔ i < 0 ∨ (n : Int) ≤ i) ∧
    (v.set i b = Option.none ↔ i < 0 ∨ (n : Int) ≤ i) := by
  unfold BoolVector.get BoolVector.set
  constructor
  · split
    · rename_i hin
      simp only [reduceCtorEq, false_iff]
      omega
    · rename_i hout
      simp only [true_iff]
      omega
  · split
    · rename_i hin
      simp only [reduceCtorEq, false_iff]
      omega
    · rename_i hout
      simp only [true_iff]
      omega

/-- C3: the padding invariant (bits at positions ≥ n read as zero) holds
after every constructor — default, zero, fill (including fill true),
fromPacked — and after every bitwise operation, NOT re-applying the
valid-bit mask; AND, OR and XOR preserve it from their operands. -/
theorem boolVector_padding_invariant (n : Nat) :
    (BoolVector.init n).paddingZero ∧
    (BoolVector.initZero n).paddingZero ∧
    (∀ b : Bool, (BoolVector.fill n b).paddingZero) ∧
    (∀ x : Nat, (BoolVector.fromPacked n x).paddingZero) ∧
    (∀ v : BoolVector n, v.bnot.paddingZero) ∧
    (∀ a b : BoolVector n, a.paddingZero → (a.band b).paddingZero) ∧
    (∀ a b : BoolVector n, a.paddingZero → b.paddingZero →
      (a.bor b).paddingZero) ∧
    (∀ a b : BoolVector n, a.paddingZero → b.paddingZero →
      (a.bxor b).paddingZero) := by
  have hpos : 0 < 2 ^ n := Nat.two_pow_pos n
  have hmask : validBitsMask n < 2 ^ n := by
    unfold validBitsMask
    omega
  refine ⟨hpos, hpos, ?_, ?_, ?_, ?_, ?_, ?_⟩
  · intro b
    unfold BoolVector.fill BoolVector.paddingZero
    cases b
    · simp
    · simpa using hmask
  · intro x
    exact Nat.and_lt_two_pow x hmask
  · intro v
    exact Nat.and_lt_two_pow _ hmask
  · intro a b ha
    exact Nat.lt_of_le_of_lt Nat.and_le_left ha
  · intro a b ha hb
    exact Nat.or_lt_two_pow ha hb
  · intro a b ha hb
    exact Nat.xor_lt_two_pow ha hb

/-- Witness for C3 at size 3: fill true, and OR/XOR of two concrete
vectors satisfying the invariant. -/
theorem boolVector_padding_invariant_witness :
    (BoolVector.fill 3 true).paddingZero ∧
    (BoolVector.bor (⟨5⟩ : BoolVector 3) ⟨2⟩).paddingZero ∧
    (BoolVector.bxor (⟨5⟩ : BoolVector 3) ⟨3⟩).paddingZero :=
  ⟨(boolVector_padding_invariant 3).2.2.1 true,
   (boolVector_padding_invariant 3).2.2.2.2.2.2.1 ⟨5⟩ ⟨2⟩ (by decide) (by decide),
   (boolVector_padding_invariant 3).2.2.2.2.2.2.2 ⟨5⟩ ⟨3⟩ (by decide) (by decide)⟩

/-- C4: fromPacked keeps bit i of the input for i < n, discards (masks
to zero) every input bit at position ≥ n, and on the concrete input
0b00001010 at size 4 yields bits 1 and 3 set, bits 0 and 2 clear,
all() false, none() false, any() true. -/
theorem boolVector_fromPacked_semantics :
    (∀ n x i : Nat, i < n →
      (BoolVector.fromPacked n x).get i = some (x.testBit i)) ∧
    (∀ n x i : Nat, n ≤ i →
      (BoolVector.fromPacked n x).data.testBit i = false) ∧
    ((BoolVector.fromPacked 4 10).get 1 = some true ∧
     (BoolVector.fromPacked 4 10).get 3 = some true ∧
     (BoolVector.fromPacked 4 10).get 0 = some false ∧
     (BoolVector.fromPacked 4 10).get 2 = some false ∧
     (BoolVector.fromPacked 4 10).all = false ∧
     (BoolVector.fromPacked 4 10).none = false ∧
     (BoolVector.fromPacked 4 10).any = true) := by
  refine ⟨?_, ?_, ?_⟩
  · intro n x i hin
    unfold BoolVector.get BoolVector.fromPacked
    rw [if_pos ⟨Int.natCast_nonneg i, by exact_mod_cast hin⟩]
    simp only [Int.toNat_natCast, Nat.testBit_and, testBit_validBitsMask,
      decide_eq_true hin, Bool.and_true]
  · intro n x i hni
    unfold BoolVector.fromPacked
    rw [Nat.testBit_and, testBit_validBitsMask,
      decide_eq_false (by omega), Bool.and_false]
  · decide

/-- Witness for C4 at size 4, packed input 10 = 0b1010, index 1. -/
theorem boolVector_fromPacked_semantics_witness :
    (1 < 4) ∧
    (BoolVector.fromPacked 4 10).get ((1 : Nat) : Int) =
      some (Nat.testBit 10 1) :=
  ⟨by decide, boolVector_fromPacked_semantics.1 4 10 1 (by decide)⟩

/-- C5: bitwise NOT is an involution on every BoolVector satisfying the
padding invariant (which every reachable value does): NOT (NOT v) = v,
validating that NOT re-masks the padding correctly. -/
theorem boolVector_not_involution {n : Nat} (v : BoolVector n)
    (h : v.paddingZero) : v.bnot.bnot = v := by
  cases v with
  | mk d =>
  unfold BoolVector.bnot
  congr 1
  apply Nat.eq_of_testBit_eq
  intro i
  by_cases hi : i < n
  · have hi8 : i < 8 * dataSize n := Nat.lt_of_lt_of_le hi (le_storage_bits n)
    simp [Nat.testBit_and, Nat.testBit_xor, testBit_storageMask,
      testBit_validBitsMask, hi, hi8]
  · have hd : d.testBit i = false := by
      apply Nat.testBit_lt_two_pow
      calc d < 2 ^ n := h
        _ ≤ 2 ^ i := Nat.pow_le_pow_right (by norm_num) (Nat.le_of_not_lt hi)
    simp [Nat.testBit_and, Nat.testBit_xor, testBit_storageMask,
      testBit_validBitsMask, hi, hd]

/-- Witness for C5 at the concrete vector of size 3 with raw bits 101. -/
theorem boolVector_not_involution_witness :
    (⟨5⟩ : BoolVector 3).paddingZero ∧
    (⟨5⟩ : BoolVector 3).bnot.bnot = ⟨5⟩ :=
  ⟨by decide, boolVector_not_involution ⟨5⟩ (by decide)⟩

/-- C6: for every BoolVector, none() is the negation of any(); and for
positive size, all() implies any(). -/
theorem boolVector_predicate_consistency {n : Nat} (v : BoolVector n) :
    v.none = !v.any ∧ (0 < n → v.all = true → v.any = true) := by
  constructor
  · unfold BoolVector.none BoolVector.any
    simp [bne]
  · intro hn hall
    unfold BoolVector.all at hall
    unfold BoolVector.any
    rw [beq_iff_eq] at hall
    rw [bne_iff_ne, hall]
    unfold validBitsMask
    have h2 : 2 ≤ 2 ^ n := by
      calc 2 = 2 ^ 1 := by norm_num
        _ ≤ 2 ^ n := Nat.pow_le_pow_right (by norm_num) hn
    omega

/-- Witness for C6 at size 3, fill true. -/
theorem boolVector_predicate_consistency_witness :
    (0 < 3) ∧ (BoolVector.fill 3 true).all = true ∧
    (BoolVector.fill 3 true).any = true :=
  ⟨by decide, by decide,
   (boolVector_predicate_consistency (BoolVector.fill 3 true)).2
     (by decide) (by decide)⟩

/-- C7: set/get locality: for an in-range index i, set i b succeeds, the
result reads b at i, and every other index (in range or not) reads
exactly what it read before. -/
theorem boolVector_set_get_locality {n : Nat} (v : BoolVector n) (i : Nat)
    (hi : i < n) (b : Bool) :
    ∃ w : BoolVector n, v.set i b = some w ∧ w.get i = some b ∧
      ∀ j : Int, j ≠ (i : Int) → w.get j = v.get j := by
  have hi8 : i < 8 * dataSize n := Nat.lt_of_lt_of_le hi (le_storage_bits n)
  have hcond : 0 ≤ (i : Int) ∧ (i : Int) < (n : Int) :=
    ⟨Int.natCast_nonneg i, by exact_mod_cast hi⟩
  refine ⟨⟨if b then v.data ||| 2 ^ i
           else v.data &&& (storageMask n ^^^ 2 ^ i)⟩, ?_, ?_, ?_⟩
  · unfold BoolVector.set
    rw [if_pos hcond]
    rfl
  · unfold BoolVector.get
    rw [if_pos hcond]
    congr 1
    simp only [Int.toNat_natCast]
    cases b
    · simp [Nat.testBit_and, Nat.testBit_xor, testBit_storageMask,
        Nat.testBit_two_pow, hi8]
    · simp [Nat.testBit_or, Nat.testBit_two_pow]
  · intro j hj
    unfold BoolVector.get
    by_cases hjr : 0 ≤ j ∧ j < (n : Int)
    · rw [if_pos hjr, if_pos hjr]
      congr 1
      have hjn : j.toNat ≠ i := by omega
      have hij : i ≠ j.toNat := fun he => hjn he.symm
      have hj8 : j.toNat < 8 * dataSize n := by
        have hlt : j.toNat < n := by omega
        exact Nat.lt_of_lt_of_le hlt (le_storage_bits n)
      cases b
      · simp [Nat.testBit_and, Nat.testBit_xor, testBit_storageMask,
          Nat.testBit_two_pow, hj8, hjn, hij]
      · simp [Nat.testBit_or, Nat.testBit_two_pow, hjn, hij]
    · rw [if_neg hjr, if_neg hjr]

/-- Witness for C7 at size 4, setting bit 2 of the zero vector to true. -/
theorem boolVector_set_get_locality_witness :
    (2 < 4) ∧
    ∃ w : BoolVector 4,
      BoolVector.set ⟨0⟩ ((2 : Nat) : Int) true = some w ∧
      BoolVector.get w ((2 : Nat) : Int) = some true ∧
      ∀ j : Int, j ≠ ((2 : Nat) : Int) →
        BoolVector.get w j = BoolVector.get (⟨0⟩ : BoolVector 4) j :=
  ⟨by decide, boolVector_set_get_locality ⟨0⟩ 2 (by decide) true⟩

/-- C8: angle-by-angle division at matching unit and precision returns
the bare scalar ratio of the underlying values (the result type is the
scalar type, not an Angle), and for every nonzero angle the self-ratio
is exactly 1. -/
theorem angle_self_ratio {u : AngleUnit} {p : Precision} (a b : Angle u p)
    (h : a.value ≠ 0) :
    Angle.divAngle a b = a.value / b.value ∧ Angle.divAngle a a = 1 :=
  ⟨rfl, div_self h⟩

/-- Witness for C8 at the one-degree angle. -/
theorem angle_self_ratio_witness :
    (Angle.ofScalar 1 : Angle .degree .single).value ≠ 0 ∧
    Angle.divAngle (Angle.ofScalar 1 : Angle .degree .single)
      (Angle.ofScalar 1) = 1 :=
  ⟨one_ne_zero,
   (angle_self_ratio (Angle.ofScalar 1) (Angle.ofScalar 1) one_ne_zero).2⟩

/-- C9: degree-to-radian conversion multiplies by pi/180 exactly once
and the inverse divides by it exactly once; the degree-radian-degree
round trip returns the input within 1e-5 relative tolerance; Deg 180
converts to pi radians within 1e-5; and Deg 90 converts to a scalar
within 1e-4 of 1.5708. -/
theorem angle_deg_rad_conversion (p : Precision) :
    (∀ x : ℝ, (Angle.degToRad (⟨x⟩ : Angle .degree p)).value
      = x * (Real.pi / 180)) ∧
    (∀ x : ℝ, (Angle.radToDeg (⟨x⟩ : Angle .radian p)).value
      = x / (Real.pi / 180)) ∧
    (∀ x : ℝ,
      |(Angle.radToDeg (Angle.degToRad (⟨x⟩ : Angle .degree p))).value - x|
        ≤ 1e-5 * |x|) ∧
    |(Angle.degToRad (⟨180⟩ : Angle .degree p)).value - Real.pi| ≤ 1e-5 ∧
    |(Angle.degToRad (⟨90⟩ : Angle .degree p)).toScalar - 1.5708| ≤ 1e-4 := by
  have hpi : Real.pi / 180 ≠ 0 := div_ne_zero Real.pi_ne_zero (by norm_num)
  refine ⟨fun x => rfl, fun x => rfl, ?_, ?_, ?_⟩
  · intro x
    have hrt : (Angle.radToDeg (Angle.degToRad
        (⟨x⟩ : Angle .degree p))).value = x := by
      show x * (Real.pi / 180) / (Real.pi / 180) = x
      exact mul_div_cancel_right₀ x hpi
    rw [hrt, sub_self, abs_zero]
    positivity
  · have h180 : (Angle.degToRad (⟨180⟩ : Angle .degree p)).value = Real.pi := by
      show (180 : ℝ) * (Real.pi / 180) = Real.pi
      field_simp
    rw [h180, sub_self, abs_zero]
    norm_num
  · have h90 : (Angle.degToRad (⟨90⟩ : Angle .degree p)).toScalar
        = Real.pi / 2 := by
      show (90 : ℝ) * (Real.pi / 180) = Real.pi / 2
      ring
    rw [h90, abs_le]
    constructor
    · linarith [Real.pi_gt_d6]
    · linarith [Real.pi_lt_d6]

/-- C10: for every Angle instantiation the no-argument constructor
produces the same value as the ZeroInit-tag constructor and as zero();
for every BoolVector size the no-argument constructor produces the same
value as the ZeroInit-tag constructor. -/
theorem default_ctor_is_zero :
    (∀ (u : AngleUnit) (p : Precision),
      (Angle.init : Angle u p) = Angle.initZero ∧
      (Angle.init : Angle u p) = Angle.zero) ∧
    (∀ n : Nat, BoolVector.init n = BoolVector.initZero n) :=
  ⟨fun _ _ => ⟨rfl, rfl⟩, fun _ => rfl⟩
